import Mathlib

/-!
Shallow embedding of the `davidmz/memcache` protocol core
(`memcache.go` and `simplemmc/srv.go`).

Byte streams are modelled as `List Char` (one `Char` per byte; all protocol
text is ASCII).  The connection's read side is a finite stream: `List Char`;
reading past its end is the I/O error (EOF) path.
-/

namespace Memcache

/-- A byte string (one `Char` per byte). -/
abbrev Bytes := List Char

/-- Conversion of a Lean string literal to bytes. -/
def str (s : String) : Bytes := s.toList

/-- The protocol end-of-line marker, `const eol = "\r\n"` in `memcache.go`. -/
def eol : Bytes := ['\r', '\n']

/-- The message of `errInvalidEOL` in `memcache.go`
(the Go literal is `"invalid EOL (must be '\\r\\n'"`). -/
def errInvalidEOLMsg : Bytes := str ("invalid EOL (must be '\\r\\n'")

/-- Message of `io.EOF`. -/
def eofMsg : Bytes := str ("EOF")

/-- Message of `io.ErrUnexpectedEOF`. -/
def unexpectedEOFMsg : Bytes := str ("unexpected EOF")

/-- `bufio.Reader.ReadString('\n')`: the line up to and including the first
`'\n'`, plus the rest of the stream; `none` is the I/O-error case (no
delimiter before end of stream). -/
def readLine : Bytes → Option (Bytes × Bytes)
  | [] => none
  | c :: cs =>
    if c = '\n' then some ([c], cs)
    else
      match readLine cs with
      | none => none
      | some (l, r) => some (c :: l, r)

/-- `strings.Split(s, " ")`: split around every single space, keeping empty
fields; the result is never empty. -/
def splitSp : Bytes → List Bytes
  | [] => [[]]
  | c :: cs =>
    if c = ' ' then [] :: splitSp cs
    else
      match splitSp cs with
      | [] => [[c]]
      | p :: ps => (c :: p) :: ps

/-- A decoded request (`Request` in `memcache.go`, without the connection
pointer). -/
structure Request where
  Command : Bytes
  Args : List Bytes
deriving DecidableEq

/-- Outcome of `connection.readRequestLine`.  `crash` is the Go run-time
panic: for a line of length 1 (a lone `"\n"`), `line[len(line)-len(eol):]`
is `line[-1:]`, a slice-bounds-out-of-range panic. -/
inductive LineResult where
  | ok (req : Request) (rest : Bytes)
  | ioErr
  | protoErr
  | crash
deriving DecidableEq

/-- `connection.readRequestLine` from `memcache.go`: read a line, require the
trailing two bytes to be `eol`, split the rest on spaces.  The
`len(parts) == 0` branch of the source (append an empty token) is kept,
although `strings.Split` never returns an empty slice. -/
def readRequestLine (input : Bytes) : LineResult :=
  match readLine input with
  | none => .ioErr
  | some (line, rest) =>
    if line.length < 2 then .crash
    else if line.drop (line.length - 2) ≠ eol then .protoErr
    else
      match splitSp (line.take (line.length - 2)) with
      | [] => .ok ⟨[], []⟩ rest
      | p :: ps => .ok ⟨p, ps⟩ rest

/-- Outcome of `connection.readRequestBody`.  `crash` covers the two Go
panic paths for a negative `length` argument: `make([]byte, length+2)` with
`length+2 < 0`, and the slice expression `body[length:]` with negative
`length`.  On `ioErr` (`io.ReadFull` fails) the whole remaining stream has
been consumed; on `protoErr` exactly `length+2` bytes were consumed. -/
inductive BodyResult where
  | ok (body : Bytes) (rest : Bytes)
  | ioErr (msg : Bytes)
  | protoErr (rest : Bytes)
  | crash
deriving DecidableEq

/-- `connection.readRequestBody` from `memcache.go`: allocate `length+2`
bytes, fill them with `io.ReadFull`, require the trailing two bytes to be
`eol`, and return the first `length` bytes. -/
def readRequestBody (length : Int) (input : Bytes) : BodyResult :=
  if length + 2 < 0 then .crash
  else
    let n := (length + 2).toNat
    if input.length < n then
      .ioErr (if input.length = 0 then eofMsg else unexpectedEOFMsg)
    else if length < 0 then .crash
    else
      let body := input.take n
      if body.drop length.toNat ≠ eol then .protoErr (input.drop n)
      else .ok (body.take length.toNat) (input.drop n)

/-- Result of `Handler.Get` (`simplemmc`): data, `ErrNotFound`, or another
error with its message. -/
inductive GetResult where
  | found (data : Bytes)
  | notFound
  | err (msg : Bytes)
deriving DecidableEq

/-- Error result of `Handler.Set` / `Handler.Del` (`simplemmc`): one of the
three sentinel errors, or an opaque error with its message. -/
inductive SetErr where
  | errNotStored
  | errNotFound
  | errExists
  | other (msg : Bytes)
deriving DecidableEq

/-- `err.Error()` for the modelled store errors (`errors.New("NOT_STORED")`
and friends in `srv.go`). -/
def SetErr.message : SetErr → Bytes
  | .errNotStored => str ("NOT_STORED")
  | .errNotFound => str ("NOT_FOUND")
  | .errExists => str ("EXISTS")
  | .other m => m

/-- `type SetMode int` with `Set`, `Add`, `Replace` from `srv.go`. -/
inductive SetMode where
  | Set
  | Add
  | Replace
deriving DecidableEq

/-- The external store (`Handler` interface of `simplemmc`): `Get`, `Set`,
`Del` as pure oracles. -/
structure Store where
  get : Bytes → GetResult
  set : Bytes → Bytes → SetMode → Option SetErr
  del : Bytes → Option SetErr

/-- One response-encoder call on `Response` (`memcache.go`).  `valueFull`
carries key, body, flags and cas; `Value` is `ValueFull` with flags = 0 and
cas = 0. -/
inductive Resp where
  | status (s : Bytes)
  | clientError (msg : Bytes)
  | serverError (msg : Bytes)
  | unknownCommand
  | valueFull (key : Bytes) (body : Bytes) (flags : Nat) (cas : Nat)
deriving DecidableEq

/-- `fmt` decimal digit for `d < 10`. -/
def digitChar (d : Nat) : Char := Char.ofNat (48 + d)

/-- Decimal rendering of a natural number, fuelled (the fuel is strictly
greater than the number, so it never runs out). -/
def natBytesCore : Nat → Nat → Bytes
  | 0, _ => []
  | fuel + 1, n =>
    if n < 10 then [digitChar n]
    else natBytesCore fuel (n / 10) ++ [digitChar (n % 10)]

/-- Decimal rendering of a natural number, as `fmt`'s `%d` writes it. -/
def natBytes (n : Nat) : Bytes := natBytesCore (n + 1) n

/-- Wire bytes of one response-encoder call, from the bodies of
`Response.Status`, `ClientError`, `ServerError`, `UnknownCommandError` and
`ValueFull` in `memcache.go`. -/
def renderResp : Resp → Bytes
  | .status s => s ++ eol
  | .clientError m => str ("CLIENT_ERROR ") ++ m ++ eol
  | .serverError m => str ("SERVER_ERROR ") ++ m ++ eol
  | .unknownCommand => str ("ERROR") ++ eol
  | .valueFull key body flags cas =>
    str ("VALUE ") ++ key ++ str (" ") ++ natBytes flags ++ str (" ") ++
      natBytes body.length ++ str (" ") ++ natBytes cas ++ eol ++ body ++ eol

/-- One observable effect of a dispatch: a response emission, a store call,
or a `Request.ReadBody` call with its length argument. -/
inductive Eff where
  | emit (r : Resp)
  | getCall (key : Bytes)
  | setCall (key : Bytes) (body : Bytes) (mode : SetMode)
  | delCall (key : Bytes)
  | readBodyCall (len : Int)
deriving DecidableEq

/-- All bytes written to the connection by a list of effects. -/
def renderOut : List Eff → Bytes
  | [] => []
  | .emit r :: es => renderResp r ++ renderOut es
  | .getCall _ :: es => renderOut es
  | .setCall _ _ _ :: es => renderOut es
  | .delCall _ :: es => renderOut es
  | .readBodyCall _ :: es => renderOut es

/-- Result of running the dispatcher on one request: its effects, the
remaining input stream, and whether it returned a non-nil error (only
`ErrCloseConnection`, from `quit`); or a run-time panic propagated from
`ReadBody`. -/
inductive DispatchRes where
  | ok (effs : List Eff) (rest : Bytes) (close : Bool)
  | crash (effs : List Eff)
deriving DecidableEq

/-- The `for _, key := range req.Args` loop of the `get`/`gets` branch of
`fullHandler`: effects in order, and whether the loop aborted on a hard
store error (`return` after `ServerError`). -/
def getLoop (store : Store) : List Bytes → List Eff × Bool
  | [] => ([], false)
  | key :: ks =>
    match store.get key with
    | .found data =>
      let r := getLoop store ks
      (.getCall key :: .emit (.valueFull key data 0 0) :: r.1, r.2)
    | .notFound =>
      let r := getLoop store ks
      (.getCall key :: r.1, r.2)
    | .err msg => ([.getCall key, .emit (.serverError msg)], true)

/-- Modelled from the spec: the `version` command replies
`Status("VERSION " + versionString)`; the constant `MemcacheVersion` is
referenced in `srv.go` but defined outside the provided source files, and
its concrete value is irrelevant to every claim. -/
def MemcacheVersion : Bytes := str ("1.0")

/-- `strconv.Atoi`: optional sign, then a non-empty run of decimal digits,
value within the 64-bit signed range; anything else is a parse error
(`none`). -/
def atoi (s : Bytes) : Option Int :=
  match s with
  | [] => none
  | c :: cs =>
    let digits := if c = '-' ∨ c = '+' then cs else c :: cs
    if digits = [] then none
    else if digits.all (fun ch => 48 ≤ ch.toNat && ch.toNat ≤ 57) then
      let v : Nat := digits.foldl (fun a ch => a * 10 + (ch.toNat - 48)) 0
      let z : Int := if c = '-' then -(v : Int) else (v : Int)
      if z < -(2 ^ 63) ∨ 2 ^ 63 - 1 < z then none else some z
    else none

/-- The command dispatcher built by `fullHandler` in `srv.go`, as a function
from the request and the remaining input stream to its effects, the
remaining stream, and its return value. -/
def fullHandler (store : Store) (req : Request) (input : Bytes) : DispatchRes :=
  if req.Command = str ("get") ∨ req.Command = str ("gets") then
    match req.Args with
    | [] => .ok [.emit (.clientError (str ("key required")))] input false
    | a :: as_ =>
      let keys := if req.Command = str ("get") then (a :: as_).take 1 else a :: as_
      let r := getLoop store keys
      if r.2 then .ok r.1 input false
      else .ok (r.1 ++ [.emit (.status (str ("END")))]) input false
  else if req.Command = str ("set") ∨ req.Command = str ("add") ∨
      req.Command = str ("replace") then
    if req.Args.length < 4 then
      .ok [.emit (.clientError (str ("invalid command format")))] input false
    else
      let noreply := req.Args.length = 5 ∧ req.Args.getD 4 [] = str ("noreply")
      let badLen : DispatchRes :=
        .ok (if noreply then [] else [.emit (.clientError (str ("invalid data length")))])
          input false
      match atoi (req.Args.getD 3 []) with
      | none => badLen
      | some bodyLen =>
        if bodyLen < 0 then badLen
        else
          match readRequestBody bodyLen input with
          | .crash => .crash [.readBodyCall bodyLen]
          | .ioErr msg =>
            .ok (.readBodyCall bodyLen ::
              (if noreply then [] else [.emit (.serverError msg)])) [] false
          | .protoErr rest =>
            .ok (.readBodyCall bodyLen ::
              (if noreply then [] else [.emit (.serverError errInvalidEOLMsg)])) rest false
          | .ok body rest =>
            let mode : SetMode :=
              if req.Command = str ("set") then .Set
              else if req.Command = str ("add") then .Add
              else if req.Command = str ("replace") then .Replace
              else .Set
            let key := req.Args.getD 0 []
            .ok (.readBodyCall bodyLen :: .setCall key body mode ::
              (if noreply then []
               else
                 match store.set key body mode with
                 | none => [.emit (.status (str ("STORED")))]
                 | some (.other m) => [.emit (.serverError m)]
                 | some e => [.emit (.status e.message)])) rest false
  else if req.Command = str ("del") then
    if req.Args.length < 1 then
      .ok [.emit (.clientError (str ("invalid command format")))] input false
    else
      let noreply := req.Args.length = 2 ∧ req.Args.getD 1 [] = str ("noreply")
      let key := req.Args.getD 0 []
      .ok (.delCall key ::
        (if noreply then []
         else
           match store.del key with
           | some .errNotFound => [.emit (.status (str ("NOT_FOUND")))]
           | some e => [.emit (.serverError e.message)]
           | none => [.emit (.status (str ("DELETED")))])) input false
  else if req.Command = str ("version") then
    .ok [.emit (.status (str ("VERSION ") ++ MemcacheVersion))] input false
  else if req.Command = str ("quit") then
    .ok [] input true
  else
    .ok [.emit .unknownCommand] input false

/-- A protocol handler, as the connection loop sees it. -/
abbrev HandlerFn := Request → Bytes → DispatchRes

/-- Why the connection loop stopped. -/
inductive StopReason where
  | ioStop
  | protoStop
  | handlerStop
  | crashStop
  | fuelOut
deriving DecidableEq

/-- Observable outcome of the connection loop: the requests dispatched to
the handler, all effects, and why the loop stopped. -/
structure RunOut where
  dispatched : List Request
  effs : List Eff
  stop : StopReason
deriving DecidableEq

/-- `connection.run` from `memcache.go`, fuelled: read a request line,
break on a read error (I/O, bad EOL, or panic), skip empty commands,
dispatch, break when the handler returns an error. -/
def runFuel (h : HandlerFn) : Nat → Bytes → RunOut
  | 0, _ => ⟨[], [], .fuelOut⟩
  | fuel + 1, input =>
    match readRequestLine input with
    | .ioErr => ⟨[], [], .ioStop⟩
    | .protoErr => ⟨[], [], .protoStop⟩
    | .crash => ⟨[], [], .crashStop⟩
    | .ok req rest =>
      if req.Command = [] then runFuel h fuel rest
      else
        match h req rest with
        | .crash effs => ⟨[req], effs, .crashStop⟩
        | .ok effs rest2 close =>
          if close then ⟨[req], effs, .handlerStop⟩
          else
            let o := runFuel h fuel rest2
            ⟨req :: o.dispatched, effs ++ o.effs, o.stop⟩

/-- Effects of the dispatcher, whether it returned or panicked. -/
def DispatchRes.effs : DispatchRes → List Eff
  | .ok e _ _ => e
  | .crash e => e

/-- Specification-side description of the `gets` command, following the
spec's words: iterate all supplied keys in order, emit a `Value` per found
key, skip `NotFound` keys, abort with a single `ServerError` (and no `END`)
at the first hard error, and emit `END` exactly when no hard error
occurred.  To be compared with `fullHandler`. -/
def getsSpecEffects (store : Store) : List Bytes → List Eff
  | [] => [.emit (.status (str ("END")))]
  | k :: ks =>
    match store.get k with
    | .found d => .getCall k :: .emit (.valueFull k d 0 0) :: getsSpecEffects store ks
    | .notFound => .getCall k :: getsSpecEffects store ks
    | .err m => [.getCall k, .emit (.serverError m)]

/-- A concrete store used to instantiate hypothesis-bearing theorems:
every key holds `"ab"`, every write succeeds. -/
def cstore : Store :=
  ⟨fun _ => .found (str ("ab")), fun _ _ _ => none, fun _ => none⟩

/-! ### Helper lemmas -/

theorem splitSp_ne_nil (l : Bytes) : splitSp l ≠ [] := by
  cases l with
  | nil => simp [splitSp]
  | cons c cs =>
    simp only [splitSp]
    split
    · simp
    · split <;> simp

theorem splitSp_nosp {xs : Bytes} (h : ' ' ∉ xs) : splitSp xs = [xs] := by
  induction xs with
  | nil => rfl
  | cons c cs ih =>
    simp only [List.mem_cons, not_or] at h
    obtain ⟨h1, h2⟩ := h
    simp only [splitSp]
    rw [if_neg (fun hc => h1 hc.symm), ih h2]

theorem splitSp_append (xs ys : Bytes) (h : ' ' ∉ xs) :
    splitSp (xs ++ ' ' :: ys) = xs :: splitSp ys := by
  induction xs with
  | nil => simp [splitSp]
  | cons c cs ih =>
    simp only [List.mem_cons, not_or] at h
    obtain ⟨h1, h2⟩ := h
    simp only [List.cons_append, splitSp, List.append_eq]
    rw [if_neg (fun hc => h1 hc.symm), ih h2]

theorem readLine_append (xs rest : Bytes) (h : '\n' ∉ xs) :
    readLine (xs ++ '\n' :: rest) = some (xs ++ ['\n'], rest) := by
  induction xs with
  | nil => simp [readLine]
  | cons c cs ih =>
    simp only [List.mem_cons, not_or] at h
    obtain ⟨h1, h2⟩ := h
    simp only [List.cons_append, readLine, List.append_eq]
    rw [if_neg (fun hc => h1 hc.symm), ih h2]

theorem readRequestLine_concat (A rest : Bytes) (p : Bytes) (ps : List Bytes)
    (h : '\n' ∉ A) (hsp : splitSp A = p :: ps) :
    readRequestLine (A ++ (eol ++ rest)) = .ok ⟨p, ps⟩ rest := by
  have h2 : '\n' ∉ A ++ ['\r'] := by
    simp only [List.mem_append, List.mem_singleton, not_or]
    exact ⟨h, by decide⟩
  have e1 : A ++ (eol ++ rest) = (A ++ ['\r']) ++ '\n' :: rest := by simp [eol]
  have e2 : (A ++ ['\r']) ++ ['\n'] = A ++ eol := by simp [eol]
  rw [readRequestLine, e1, readLine_append _ _ h2, e2]
  simp only [List.length_append, show eol.length = 2 from rfl]
  rw [if_neg (by omega : ¬ (A.length + 2 < 2))]
  have hidx : A.length + 2 - 2 = A.length := by omega
  rw [hidx, List.drop_left, List.take_left, if_neg (by simp), hsp]

theorem digitChar_toNat {d : Nat} (h : d < 10) : (digitChar d).toNat = 48 + d := by
  interval_cases d <;> decide

theorem natBytesCore_digits :
    ∀ fuel n, n < fuel → ∀ c ∈ natBytesCore fuel n, 48 ≤ c.toNat ∧ c.toNat ≤ 57 := by
  intro fuel
  induction fuel with
  | zero => intro n h; omega
  | succ fuel ih =>
    intro n hn c hc
    simp only [natBytesCore] at hc
    by_cases h10 : n < 10
    · rw [if_pos h10] at hc
      simp only [List.mem_singleton] at hc
      subst hc
      rw [digitChar_toNat h10]
      omega
    · rw [if_neg h10] at hc
      simp only [List.mem_append, List.mem_singleton] at hc
      rcases hc with hc | hc
      · have hlt : n / 10 < fuel := by
          have := Nat.div_lt_self (show 0 < n by omega) (show 1 < 10 by omega)
          omega
        exact ih (n / 10) hlt c hc
      · subst hc
        rw [digitChar_toNat (Nat.mod_lt _ (by omega))]
        have := Nat.mod_lt n (show 0 < 10 by omega)
        omega

theorem natBytesCore_ne_nil {fuel n : Nat} (h : n < fuel) : natBytesCore fuel n ≠ [] := by
  cases fuel with
  | zero => omega
  | succ fuel =>
    simp only [natBytesCore]
    split <;> simp

theorem natBytesCore_foldl :
    ∀ fuel n, n < fuel → ∃ M, 0 < M ∧ ∀ a,
      List.foldl (fun x c => x * 10 + (c.toNat - 48)) a (natBytesCore fuel n) = a * M + n := by
  intro fuel
  induction fuel with
  | zero => intro n h; omega
  | succ fuel ih =>
    intro n hn
    by_cases h10 : n < 10
    · refine ⟨10, by omega, fun a => ?_⟩
      simp only [natBytesCore, if_pos h10, List.foldl_cons, List.foldl_nil]
      rw [digitChar_toNat h10]
      omega
    · obtain ⟨M, hM, hfold⟩ := ih (n / 10) (by
        have := Nat.div_lt_self (show 0 < n by omega) (show 1 < 10 by omega)
        omega)
      refine ⟨M * 10, by omega, fun a => ?_⟩
      simp only [natBytesCore, if_neg h10]
      rw [List.foldl_append, hfold, List.foldl_cons, List.foldl_nil,
        digitChar_toNat (Nat.mod_lt _ (by omega))]
      have e : (a * M + n / 10) * 10 + (48 + n % 10 - 48) =
          a * (M * 10) + (10 * (n / 10) + n % 10) := by
        have h48 : 48 + n % 10 - 48 = n % 10 := by omega
        rw [h48]
        ring
      rw [e, Nat.div_add_mod]

theorem natBytes_digits (n : Nat) : ∀ c ∈ natBytes n, 48 ≤ c.toNat ∧ c.toNat ≤ 57 :=
  natBytesCore_digits _ _ (Nat.lt_succ_self n)

theorem natBytes_no_specials (n : Nat) :
    ' ' ∉ natBytes n ∧ '\r' ∉ natBytes n ∧ '\n' ∉ natBytes n := by
  refine ⟨fun h => ?_, fun h => ?_, fun h => ?_⟩ <;>
    exact absurd (natBytes_digits n _ h) (by decide)

theorem atoi_natBytes (n : Nat) (h : (n : Int) ≤ 2 ^ 63 - 1) :
    atoi (natBytes n) = some (n : Int) := by
  have hfuel : n < n + 1 := Nat.lt_succ_self n
  obtain ⟨M, hM, hfold⟩ := natBytesCore_foldl (n + 1) n hfuel
  have hdig := natBytesCore_digits (n + 1) n hfuel
  have hne := natBytesCore_ne_nil hfuel
  rw [natBytes] at *
  rcases hcase : natBytesCore (n + 1) n with _ | ⟨c, cs⟩
  · exact absurd hcase hne
  · rw [hcase] at hfold hdig
    have hc := hdig c (by simp)
    have hcm : ¬ (c = '-' ∨ c = '+') := by
      rintro (rfl | rfl)
      · exact absurd hc (by decide)
      · exact absurd hc (by decide)
    simp only [atoi]
    rw [if_neg hcm]
    rw [if_neg (by simp : ¬ (c :: cs = []))]
    have hall : (c :: cs).all (fun ch => 48 ≤ ch.toNat && ch.toNat ≤ 57) = true := by
      rw [List.all_eq_true]
      intro ch hch
      have hd := hdig ch hch
      simp [hd.1, hd.2]
    rw [if_pos hall]
    have hv : List.foldl (fun a ch => a * 10 + (ch.toNat - 48)) 0 (c :: cs) = n := by
      rw [hfold 0]
      omega
    rw [hv]
    have hcminus : ¬ c = '-' := fun hc' => hcm (Or.inl hc')
    rw [if_neg hcminus]
    have h63 : (2 : Int) ^ 63 = 9223372036854775808 := by norm_num
    have hnn : (0 : Int) ≤ (n : Int) := Int.natCast_nonneg n
    rw [if_neg (by omega : ¬ ((n : Int) < -(2 ^ 63) ∨ 2 ^ 63 - 1 < (n : Int)))]

theorem readRequestBody_exact (body rest : Bytes) :
    readRequestBody (body.length : Int) (body ++ (eol ++ rest)) = .ok body rest := by
  have h1 : ¬ ((body.length : Int) + 2 < 0) := by omega
  simp only [readRequestBody]
  rw [if_neg h1]
  have hn : ((body.length : Int) + 2).toNat = body.length + 2 := by omega
  rw [hn]
  have hlen : (body ++ (eol ++ rest)).length = body.length + 2 + rest.length := by
    simp [eol]
    omega
  rw [hlen]
  rw [if_neg (by omega : ¬ (body.length + 2 + rest.length < body.length + 2))]
  rw [if_neg (by omega : ¬ ((body.length : Int) < 0))]
  have htn : ((body.length : Int)).toNat = body.length := by omega
  rw [htn]
  rw [← List.append_assoc]
  rw [List.take_left' (by simp [eol] : (body ++ eol).length = body.length + 2)]
  rw [List.drop_left' (rfl : body.length = body.length)]
  rw [if_neg (by simp)]
  rw [List.take_left, List.drop_left' (by simp [eol] : (body ++ eol).length = body.length + 2)]

theorem getLoop_spec (store : Store) (keys : List Bytes) :
    (if (getLoop store keys).2 then (getLoop store keys).1
     else (getLoop store keys).1 ++ [.emit (.status (str ("END")))]) =
      getsSpecEffects store keys := by
  induction keys with
  | nil => simp [getLoop, getsSpecEffects]
  | cons k ks ih =>
    cases h : store.get k <;> simp only [getLoop, getsSpecEffects, h]
    · rw [← ih]
      cases hr : (getLoop store ks).2 <;> simp [hr]
    · rw [← ih]
      cases hr : (getLoop store ks).2 <;> simp [hr]
    · simp

theorem getLoop_no_readBody (store : Store) (keys : List Bytes) (n : Int) :
    Eff.readBodyCall n ∉ (getLoop store keys).1 := by
  induction keys with
  | nil => simp [getLoop]
  | cons k ks ih =>
    cases h : store.get k <;> simp [getLoop, h, ih]

theorem fullHandler_get_cases (store : Store) (k : Bytes) (ks : List Bytes) (input : Bytes) :
    fullHandler store ⟨str ("get"), k :: ks⟩ input =
      .ok (match store.get k with
        | .found d => [.getCall k, .emit (.valueFull k d 0 0), .emit (.status (str ("END")))]
        | .notFound => [.getCall k, .emit (.status (str ("END")))]
        | .err m => [.getCall k, .emit (.serverError m)]) input false := by
  cases h : store.get k <;> simp [fullHandler, getLoop, h, str]

theorem fullHandler_gets_cases (store : Store) (k : Bytes) (ks : List Bytes) (input : Bytes) :
    fullHandler store ⟨str ("gets"), k :: ks⟩ input =
      .ok (getsSpecEffects store (k :: ks)) input false := by
  rw [← getLoop_spec store (k :: ks)]
  cases hr : (getLoop store (k :: ks)).2 <;> simp [fullHandler, hr, str]

theorem fullHandler_setcmd (store : Store) (cmd : Bytes) (mode : SetMode)
    (a0 a1 a2 a3 : Bytes) (rest : List Bytes) (input body rest2 : Bytes) (n : Int)
    (hcm : (cmd = str ("set") ∧ mode = .Set) ∨ (cmd = str ("add") ∧ mode = .Add) ∨
      (cmd = str ("replace") ∧ mode = .Replace))
    (hn : atoi a3 = some n) (hnn : 0 ≤ n)
    (hb : readRequestBody n input = .ok body rest2) :
    fullHandler store ⟨cmd, a0 :: a1 :: a2 :: a3 :: rest⟩ input =
      .ok (.readBodyCall n :: .setCall a0 body mode ::
        (if rest = [str ("noreply")] then []
         else
           match store.set a0 body mode with
           | none => [.emit (.status (str ("STORED")))]
           | some (.other m) => [.emit (.serverError m)]
           | some e => [.emit (.status e.message)])) rest2 false := by
  have h4 : ¬ ((a0 :: a1 :: a2 :: a3 :: rest).length < 4) := by simp
  simp only [List.length_cons] at h4
  have hn0 : ¬ (n < 0) := by omega
  have hnr : (rest.length = 1 ∧ rest[0]?.getD [] = ['n', 'o', 'r', 'e', 'p', 'l', 'y']) ↔
      rest = [['n', 'o', 'r', 'e', 'p', 'l', 'y']] := by
    rcases rest with _ | ⟨x, _ | ⟨y, t⟩⟩ <;> simp
  obtain ⟨rfl, rfl⟩ | ⟨rfl, rfl⟩ | ⟨rfl, rfl⟩ := hcm <;>
    simp [fullHandler, h4, hn, hn0, hb, hnr, str]

theorem readRequestBody_no_crash (len : Int) (input : Bytes) (h : 0 ≤ len) :
    readRequestBody len input ≠ .crash := by
  simp only [readRequestBody]
  split
  · omega
  · split
    · simp
    · split
      · omega
      · split <;> simp

theorem fullHandler_cases (store : Store) (req : Request) (input : Bytes) :
    ∃ effs rest close, fullHandler store req input = .ok effs rest close ∧
      ∀ n, Eff.readBodyCall n ∈ effs → 0 ≤ n := by
  by_cases h1 : req.Command = str ("get") ∨ req.Command = str ("gets")
  · rcases hargs : req.Args with _ | ⟨a, as_⟩
    · simp only [fullHandler, hargs, if_pos h1]
      exact ⟨_, _, _, rfl, by simp⟩
    · simp only [fullHandler, hargs, if_pos h1]
      split <;> split <;>
        refine ⟨_, _, _, rfl, fun n hn => ?_⟩ <;>
        simp [getLoop_no_readBody] at hn
  · by_cases h2 : req.Command = str ("set") ∨ req.Command = str ("add") ∨
        req.Command = str ("replace")
    · simp only [fullHandler, if_neg h1, if_pos h2]
      by_cases h4 : req.Args.length < 4
      · simp only [if_pos h4]
        exact ⟨_, _, _, rfl, by simp⟩
      · simp only [if_neg h4]
        rcases ha : atoi (req.Args.getD 3 []) with _ | z
        · simp only [ha]
          refine ⟨_, _, _, rfl, fun n hn => ?_⟩
          revert hn
          split <;> simp
        · simp only [ha]
          by_cases hz : z < 0
          · simp only [if_pos hz]
            refine ⟨_, _, _, rfl, fun n hn => ?_⟩
            revert hn
            split <;> simp
          · simp only [if_neg hz]
            cases hb : readRequestBody z input with
            | ok b r =>
              simp only [hb]
              refine ⟨_, _, _, rfl, fun n hn => ?_⟩
              simp only [List.mem_cons] at hn
              rcases hn with h | h | h
              · simp at h
                omega
              · simp at h
              · revert h
                split
                · simp
                · split <;> simp
            | ioErr m =>
              simp only [hb]
              refine ⟨_, _, _, rfl, fun n hn => ?_⟩
              simp only [List.mem_cons] at hn
              rcases hn with h | h
              · simp at h
                omega
              · revert h
                split <;> simp
            | protoErr r =>
              simp only [hb]
              refine ⟨_, _, _, rfl, fun n hn => ?_⟩
              simp only [List.mem_cons] at hn
              rcases hn with h | h
              · simp at h
                omega
              · revert h
                split <;> simp
            | crash =>
              exact absurd hb (readRequestBody_no_crash _ _ (by omega))
    · simp only [fullHandler, if_neg h1, if_neg h2]
      by_cases h3 : req.Command = str ("del")
      · simp only [if_pos h3]
        by_cases h5 : req.Args.length < 1
        · simp only [if_pos h5]
          exact ⟨_, _, _, rfl, by simp⟩
        · simp only [if_neg h5]
          refine ⟨_, _, _, rfl, fun n hn => ?_⟩
          simp only [List.mem_cons] at hn
          rcases hn with h | h
          · simp at h
          · revert h
            split
            · simp
            · split <;> simp
      · simp only [if_neg h3]
        by_cases h5 : req.Command = str ("version")
        · simp only [if_pos h5]
          exact ⟨_, _, _, rfl, by simp⟩
        · simp only [if_neg h5]
          by_cases h6 : req.Command = str ("quit")
          · simp only [if_pos h6]
            exact ⟨_, _, _, rfl, by simp⟩
          · simp only [if_neg h6]
            exact ⟨_, _, _, rfl, by simp⟩

/-! ### Claim theorems -/

/-- Claim C2: a dispatched `get` request with at least one argument fetches
only the first key via `Store.Get` and discards every later argument; on a
found value exactly one `Value` block is emitted followed by `END`; on
`NotFound` only `END`; on any other error a `ServerError` and no `END`.  The
handler returns nil (connection continues) and consumes no body input. -/
theorem get_first_key_only (store : Store) (k : Bytes) (ks : List Bytes) (input : Bytes) :
    fullHandler store ⟨str ("get"), k :: ks⟩ input =
      .ok (match store.get k with
        | .found d => [.getCall k, .emit (.valueFull k d 0 0), .emit (.status (str ("END")))]
        | .notFound => [.getCall k, .emit (.status (str ("END")))]
        | .err m => [.getCall k, .emit (.serverError m)]) input false :=
  fullHandler_get_cases store k ks input

/-- Claim C3: a dispatched `gets` request with at least one argument calls
`Store.Get` on all supplied keys in request order, emits one `Value` block
per found key, nothing for `NotFound` keys, aborts with a single
`ServerError` (and no `END`) at the first hard error, and emits `END`
exactly when no hard error occurred (`getsSpecEffects` states exactly
that recursion). -/
theorem gets_all_keys (store : Store) (k : Bytes) (ks : List Bytes) (input : Bytes) :
    fullHandler store ⟨str ("gets"), k :: ks⟩ input =
      .ok (getsSpecEffects store (k :: ks)) input false :=
  fullHandler_gets_cases store k ks input

/-- Claim C4: a dispatched `set`/`add`/`replace` request with fewer than 4
arguments always yields `ClientError "invalid command format"`, with no body
read and no store call, never suppressed by a `noreply`-shaped argument
(the argument-count check precedes noreply detection). -/
theorem set_few_args_always_client_error (store : Store) (cmd : Bytes)
    (args : List Bytes) (input : Bytes)
    (hc : cmd = str ("set") ∨ cmd = str ("add") ∨ cmd = str ("replace"))
    (hlen : args.length < 4) :
    fullHandler store ⟨cmd, args⟩ input =
      .ok [.emit (.clientError (str ("invalid command format")))] input false := by
  obtain rfl | rfl | rfl := hc <;> simp [fullHandler, hlen, str]

/-- Claim C5: a dispatched `set`/`add`/`replace` request with at least 4
arguments whose 4th argument does not parse as a non-negative integer yields
`ClientError "invalid data length"` with no body read and no store call, and
the handler returns nil (connection continues); under noreply (exactly 5
arguments, the 5th equal to `noreply`) the error response is silently
dropped. -/
theorem set_bad_length_client_error (store : Store) (cmd a0 a1 a2 a3 : Bytes)
    (rest : List Bytes) (input : Bytes)
    (hc : cmd = str ("set") ∨ cmd = str ("add") ∨ cmd = str ("replace"))
    (hbad : atoi a3 = none ∨ ∃ z, atoi a3 = some z ∧ z < 0) :
    fullHandler store ⟨cmd, a0 :: a1 :: a2 :: a3 :: rest⟩ input =
      .ok (if rest = [str ("noreply")] then []
           else [.emit (.clientError (str ("invalid data length")))]) input false := by
  have h4 : ¬ ((a0 :: a1 :: a2 :: a3 :: rest).length < 4) := by simp
  simp only [List.length_cons] at h4
  have hnr : (rest.length = 1 ∧ rest[0]?.getD [] = ['n', 'o', 'r', 'e', 'p', 'l', 'y']) ↔
      rest = [['n', 'o', 'r', 'e', 'p', 'l', 'y']] := by
    rcases rest with _ | ⟨x, _ | ⟨y, t⟩⟩ <;> simp
  obtain rfl | rfl | rfl := hc <;>
    (rcases hbad with hn | ⟨z, hz, hzneg⟩
     · simp [fullHandler, h4, hn, hnr, str]
     · simp [fullHandler, h4, hz, hzneg, hnr, str])

/-- Claim C6: a dispatched `set`/`add`/`replace` request with valid arguments
and body maps the command name to the `SetMode` (`set`→Set, `add`→Add,
`replace`→Replace), calls `Store.Set(key, body, mode)` with the first
argument as key, and maps the result: the three sentinel errors to their
status tokens, any other error to `ServerError` with its message, success to
`STORED`; under noreply no response at all is written for the store
result. -/
theorem set_valid_dispatch (store : Store) (cmd : Bytes) (mode : SetMode)
    (a0 a1 a2 a3 : Bytes) (rest : List Bytes) (input body rest2 : Bytes) (n : Int)
    (hcm : (cmd = str ("set") ∧ mode = .Set) ∨ (cmd = str ("add") ∧ mode = .Add) ∨
      (cmd = str ("replace") ∧ mode = .Replace))
    (hn : atoi a3 = some n) (hnn : 0 ≤ n)
    (hb : readRequestBody n input = .ok body rest2) :
    fullHandler store ⟨cmd, a0 :: a1 :: a2 :: a3 :: rest⟩ input =
      .ok (.readBodyCall n :: .setCall a0 body mode ::
        (if rest = [str ("noreply")] then []
         else
           match store.set a0 body mode with
           | none => [.emit (.status (str ("STORED")))]
           | some (.other m) => [.emit (.serverError m)]
           | some e => [.emit (.status e.message)])) rest2 false :=
  fullHandler_setcmd store cmd mode a0 a1 a2 a3 rest input body rest2 n hcm hn hnn hb

/-- Claim C9: a dispatched `get` or `gets` request with zero arguments yields
`ClientError "key required"` with no `Store.Get` call and no `END`, and the
handler returns nil (connection continues). -/
theorem get_no_args_key_required (store : Store) (input : Bytes) :
    fullHandler store ⟨str ("get"), []⟩ input =
      .ok [.emit (.clientError (str ("key required")))] input false ∧
    fullHandler store ⟨str ("gets"), []⟩ input =
      .ok [.emit (.clientError (str ("key required")))] input false := by
  constructor <;> simp [fullHandler, str]

/-- Claim C10: the dispatcher only calls `Request.ReadBody` with a
non-negative length (the `Atoi` success and `bodyLen ≥ 0` checks precede the
call), the dispatcher can never hit a `readRequestBody` panic, and
`readRequestBody` itself is panic-free for every non-negative length. -/
theorem readBody_nonneg_safe (store : Store) (req : Request) (input : Bytes) :
    (∀ e, fullHandler store req input ≠ .crash e) ∧
    (∀ n, Eff.readBodyCall n ∈ (fullHandler store req input).effs → 0 ≤ n) ∧
    (∀ len inp, 0 ≤ len → readRequestBody len inp ≠ .crash) := by
  obtain ⟨effs, rest, close, heq, hmem⟩ := fullHandler_cases store req input
  refine ⟨fun e hc => ?_, fun n hn => ?_, fun len inp hl => readRequestBody_no_crash len inp hl⟩
  · rw [heq] at hc
    exact DispatchRes.noConfusion hc
  · rw [heq] at hn
    simp only [DispatchRes.effs] at hn
    exact hmem n hn

/-- Claim C1 (evidence): the claim says every line whose trailing bytes are
not `"\r\n"` — including a lone `"\n"` — yields the `errInvalidEOL` framing
error and a clean connection close.  On the lone-`"\n"` line the code
instead evaluates `line[len(line)-2:]` = `line[-1:]` and panics
(slice bounds out of range), so the loop crashes rather than closing
cleanly; on longer malformed lines (e.g. `"x\n"`) the claimed behavior does
hold: `errInvalidEOL`, loop stops, no response, distinct from the I/O
stop. -/
theorem readRequestLine_lone_newline_crashes :
    readRequestLine (str ("\n")) = .crash ∧
    (∀ (h : HandlerFn) (fuel : Nat),
      runFuel h (fuel + 1) (str ("\n")) = ⟨[], [], .crashStop⟩) ∧
    readRequestLine (str ("x\n")) = .protoErr ∧
    (∀ (h : HandlerFn) (fuel : Nat),
      runFuel h (fuel + 1) (str ("x\n")) = ⟨[], [], .protoStop⟩) := by
  refine ⟨by decide, fun h fuel => ?_, by decide, fun h fuel => ?_⟩
  · simp [runFuel, (by decide : readRequestLine (str ("\n")) = LineResult.crash)]
  · simp [runFuel, (by decide : readRequestLine (str ("x\n")) = LineResult.protoErr)]

/-- Claim C8: the connection loop never invokes the handler with an empty
command — every dispatched request has a non-empty command — and a line
whose first token is empty (such as a bare `"\r\n"` line) is skipped: the
loop continues on the rest of the stream with no dispatch, no response and
no error. -/
theorem run_never_dispatches_empty_command (h : HandlerFn) :
    (∀ fuel input, ∀ r ∈ (runFuel h fuel input).dispatched, r.Command ≠ []) ∧
    (∀ fuel input req rest, readRequestLine input = .ok req rest → req.Command = [] →
      runFuel h (fuel + 1) input = runFuel h fuel rest) := by
  constructor
  · intro fuel
    induction fuel with
    | zero =>
      intro input r hr
      simp [runFuel] at hr
    | succ fuel ih =>
      intro input r hr
      revert hr
      simp only [runFuel]
      split
      · -- I/O error stop
        intro hr
        simp at hr
      · -- framing error stop
        intro hr
        simp at hr
      · -- panic stop
        intro hr
        simp at hr
      · -- a request was decoded
        rename_i req rest heq
        split
        · -- empty command: skipped
          intro hr
          exact ih rest r hr
        · rename_i hcmd
          split
          · -- handler panicked
            intro hr
            simp at hr
            subst hr
            exact hcmd
          · rename_i effs rest2 close heff
            split
            · -- handler returned an error
              intro hr
              simp at hr
              subst hr
              exact hcmd
            · -- handler returned nil: loop continues
              intro hr
              simp only [List.mem_cons] at hr
              rcases hr with rfl | hr
              · exact hcmd
              · exact ih rest2 r hr
  · intro fuel input req rest hline hcmd
    simp only [runFuel, hline, hcmd, if_pos]

theorem run_never_dispatches_empty_command_witness :
    (⟨str ("get"), [str ("k")]⟩ : Request).Command ≠ [] ∧
    runFuel (fullHandler cstore) 1 (str ("\r\nx")) =
      runFuel (fullHandler cstore) 0 (str ("x")) :=
  ⟨(run_never_dispatches_empty_command (fullHandler cstore)).1 1 (str ("get k\r\n"))
      ⟨str ("get"), [str ("k")]⟩ (by decide),
   (run_never_dispatches_empty_command (fullHandler cstore)).2 0 (str ("\r\nx"))
      ⟨[], []⟩ (str ("x")) (by decide) rfl⟩

/-- Claim C7: round-trip over the wire.  For every key (no space, CR or LF
bytes) and every body, if the store's `Set(key, body, Set)` succeeds and its
`Get(key)` then returns that body, processing
`set key 0 0 N\r\n<N bytes>\r\n` followed by `get key\r\n` writes exactly
`STORED\r\n` and then `VALUE key 0 N 0\r\n<bytes>\r\nEND\r\n`, with flags
and cas rendered as `0` and the length as the decimal of `len(body)`. -/
theorem set_get_roundtrip (store : Store) (key body : Bytes)
    (hkey : ∀ c ∈ key, c ≠ ' ' ∧ c ≠ '\r' ∧ c ≠ '\n')
    (hset : store.set key body .Set = none)
    (hget : store.get key = .found body)
    (hsize : (body.length : Int) ≤ 2 ^ 63 - 1) :
    renderOut (runFuel (fullHandler store) 3
      (str ("set ") ++ key ++ str (" 0 0 ") ++ natBytes body.length ++ eol ++
        body ++ eol ++ str ("get ") ++ key ++ eol)).effs =
      str ("STORED") ++ eol ++
      str ("VALUE ") ++ key ++ str (" 0 ") ++ natBytes body.length ++ str (" 0") ++ eol ++
      body ++ eol ++ str ("END") ++ eol := by
  have hks : ' ' ∉ key := fun hc => (hkey _ hc).1 rfl
  have hkr : '\r' ∉ key := fun hc => (hkey _ hc).2.1 rfl
  have hkn : '\n' ∉ key := fun hc => (hkey _ hc).2.2 rfl
  obtain ⟨hnb_sp, hnb_r, hnb_n⟩ := natBytes_no_specials body.length
  -- the two request-line payloads, in the split-friendly shape
  have hsplit1 : splitSp (str ("set") ++ ' ' ::
      (key ++ ' ' :: (['0'] ++ ' ' :: (['0'] ++ ' ' :: natBytes body.length)))) =
      [str ("set"), key, ['0'], ['0'], natBytes body.length] := by
    rw [splitSp_append _ _ (by decide), splitSp_append _ _ hks,
      splitSp_append _ _ (by decide), splitSp_append _ _ (by decide),
      splitSp_nosp hnb_sp]
  have hsplit2 : splitSp (str ("get") ++ ' ' :: key) = [str ("get"), key] := by
    rw [splitSp_append _ _ (by decide), splitSp_nosp hks]
  have hA1n : '\n' ∉ str ("set") ++ ' ' ::
      (key ++ ' ' :: (['0'] ++ ' ' :: (['0'] ++ ' ' :: natBytes body.length))) := by
    simp [str, hkn, hnb_n]
  have hA2n : '\n' ∉ str ("get") ++ ' ' :: key := by
    simp [str, hkn]
  have hline1 := readRequestLine_concat
    (str ("set") ++ ' ' :: (key ++ ' ' :: (['0'] ++ ' ' :: (['0'] ++ ' ' :: natBytes body.length))))
    (body ++ (eol ++ ((str ("get") ++ ' ' :: key) ++ (eol ++ []))))
    (str ("set")) [key, ['0'], ['0'], natBytes body.length] hA1n hsplit1
  have hline2 := readRequestLine_concat (str ("get") ++ ' ' :: key) []
    (str ("get")) [key] hA2n hsplit2
  have hd1 := fullHandler_setcmd store (str ("set")) .Set key (['0']) (['0'])
    (natBytes body.length) [] (body ++ (eol ++ ((str ("get") ++ ' ' :: key) ++ (eol ++ []))))
    body ((str ("get") ++ ' ' :: key) ++ (eol ++ [])) (body.length : Int)
    (Or.inl ⟨rfl, rfl⟩) (atoi_natBytes _ hsize) (Int.natCast_nonneg _)
    (readRequestBody_exact body ((str ("get") ++ ' ' :: key) ++ (eol ++ [])))
  have hd1' : fullHandler store ⟨str ("set"), [key, ['0'], ['0'], natBytes body.length]⟩
      (body ++ (eol ++ ((str ("get") ++ ' ' :: key) ++ (eol ++ [])))) =
      .ok [.readBodyCall (body.length : Int), .setCall key body .Set,
        .emit (.status (str ("STORED")))] ((str ("get") ++ ' ' :: key) ++ (eol ++ [])) false := by
    rw [hd1]
    simp [hset, str]
  have hd2 := fullHandler_get_cases store key [] []
  have hd2' : fullHandler store ⟨str ("get"), [key]⟩ [] =
      .ok [.getCall key, .emit (.valueFull key body 0 0),
        .emit (.status (str ("END")))] [] false := by
    rw [hd2, hget]
  have hw : str ("set ") ++ key ++ str (" 0 0 ") ++ natBytes body.length ++ eol ++
      body ++ eol ++ str ("get ") ++ key ++ eol =
      (str ("set") ++ ' ' :: (key ++ ' ' :: (['0'] ++ ' ' :: (['0'] ++ ' ' :: natBytes body.length)))) ++
        (eol ++ (body ++ (eol ++ ((str ("get") ++ ' ' :: key) ++ (eol ++ []))))) := by
    simp [str, eol, List.append_assoc]
  rw [hw]
  have hrun : runFuel (fullHandler store) 3
      ((str ("set") ++ ' ' :: (key ++ ' ' :: (['0'] ++ ' ' :: (['0'] ++ ' ' :: natBytes body.length)))) ++
        (eol ++ (body ++ (eol ++ ((str ("get") ++ ' ' :: key) ++ (eol ++ [])))))) =
      ⟨[⟨str ("set"), [key, ['0'], ['0'], natBytes body.length]⟩, ⟨str ("get"), [key]⟩],
        [.readBodyCall (body.length : Int), .setCall key body .Set,
          .emit (.status (str ("STORED"))), .getCall key, .emit (.valueFull key body 0 0),
          .emit (.status (str ("END")))], .ioStop⟩ := by
    rw [show (3 : Nat) = 2 + 1 from rfl, show (2 : Nat) = 1 + 1 from rfl,
      show (1 : Nat) = 0 + 1 from rfl]
    simp only [runFuel, hline1, hd1', hline2, hd2',
      (by decide : readRequestLine [] = LineResult.ioErr)]
    simp [str]
  rw [hrun]
  have hnb0 : natBytes 0 = ['0'] := by decide
  simp only [renderOut, renderResp, hnb0]
  simp [str, eol, List.append_assoc]

theorem set_get_roundtrip_witness :
    renderOut (runFuel (fullHandler cstore) 3
      (str ("set ") ++ str ("k") ++ str (" 0 0 ") ++ natBytes (str ("ab")).length ++ eol ++
        str ("ab") ++ eol ++ str ("get ") ++ str ("k") ++ eol)).effs =
      str ("STORED") ++ eol ++
      str ("VALUE ") ++ str ("k") ++ str (" 0 ") ++ natBytes (str ("ab")).length ++
        str (" 0") ++ eol ++ str ("ab") ++ eol ++ str ("END") ++ eol :=
  set_get_roundtrip cstore (str ("k")) (str ("ab")) (by decide) rfl rfl (by decide)

theorem set_few_args_always_client_error_witness :
    (str ("set") = str ("set") ∨ str ("set") = str ("add") ∨ str ("set") = str ("replace")) ∧
    ([str ("k")] : List Bytes).length < 4 ∧
    fullHandler cstore ⟨str ("set"), [str ("k"), str ("noreply")]⟩ [] =
      .ok [.emit (.clientError (str ("invalid command format")))] [] false :=
  ⟨Or.inl rfl, by decide,
   set_few_args_always_client_error cstore (str ("set")) [str ("k"), str ("noreply")] []
     (Or.inl rfl) (by decide)⟩

theorem set_bad_length_client_error_witness :
    (atoi (str ("-1")) = some (-1) ∧ (-1 : Int) < 0) ∧
    fullHandler cstore ⟨str ("set"), [str ("k"), str ("0"), str ("0"), str ("-1")]⟩ [] =
      .ok [.emit (.clientError (str ("invalid data length")))] [] false := by
  refine ⟨⟨by decide, by decide⟩, ?_⟩
  have h := set_bad_length_client_error cstore (str ("set")) (str ("k")) (str ("0"))
    (str ("0")) (str ("-1")) [] [] (Or.inl rfl) (Or.inr ⟨-1, by decide, by decide⟩)
  simpa using h

theorem set_valid_dispatch_witness :
    (atoi (str ("2")) = some 2) ∧ ((0 : Int) ≤ 2) ∧
    (readRequestBody 2 (str ("ab\r\nX")) = .ok (str ("ab")) (str ("X"))) ∧
    fullHandler cstore ⟨str ("set"), [str ("k"), str ("0"), str ("0"), str ("2")]⟩
      (str ("ab\r\nX")) =
      .ok [.readBodyCall 2, .setCall (str ("k")) (str ("ab")) .Set,
        .emit (.status (str ("STORED")))] (str ("X")) false := by
  refine ⟨by decide, by decide, by decide, ?_⟩
  have h := set_valid_dispatch cstore (str ("set")) .Set (str ("k")) (str ("0")) (str ("0"))
    (str ("2")) [] (str ("ab\r\nX")) (str ("ab")) (str ("X")) 2
    (Or.inl ⟨rfl, rfl⟩) (by decide) (by decide) (by decide)
  simpa using h

theorem readBody_nonneg_safe_witness :
    fullHandler cstore ⟨str ("version"), []⟩ [] ≠ .crash [] ∧
    (0 : Int) ≤ 2 ∧
    readRequestBody 0 (str ("\r\n")) ≠ .crash :=
  ⟨(readBody_nonneg_safe cstore ⟨str ("version"), []⟩ []).1 [],
   (readBody_nonneg_safe cstore ⟨str ("set"), [str ("k"), str ("0"), str ("0"), str ("2")]⟩
      (str ("ab\r\n"))).2.1 2 (by decide),
   (readBody_nonneg_safe cstore ⟨str ("set"), []⟩ []).2.2 0 (str ("\r\n")) (by decide)⟩

end Memcache
